import Mathlib

/-!
Shallow embedding of the grokriff notation engine (src/grokmidi.py and
src/midigimp.py) and proofs about its pitch resolution, staff placement,
duration table, timeline assembly, edit history and phrase-commit logic.

Note strings are modelled as `List Char` (the Python code indexes and
slices them character-wise); duration codes, which are only looked up by
equality, are modelled as `String`.  Python's `%` on int agrees with
Lean's `Int.emod` and Python's `//` with `Int.fdiv`.  Python stacks
(append/pop at the right end) are modelled with the stack top at the head
of a Lean list.  Fallible lookups (`dict[k]`, `s[0]`, `raise ValueError`)
are modelled with `Except`/`Option`.
-/

namespace GrokRiff

/-- `NOTE_MAP` from src/grokmidi.py line 13 (also `note_map` in
src/midigimp.py line 28): the chromatic semitone of each letter. -/
def NOTE_MAP : Char → Option Int
  | 'C' => some 0
  | 'D' => some 2
  | 'E' => some 4
  | 'F' => some 5
  | 'G' => some 7
  | 'A' => some 9
  | 'B' => some 11
  | _ => none

/-- `ACC_MAP` from src/grokmidi.py line 14. -/
def ACC_MAP : Char → Option Int
  | '#' => some 1
  | 'B' => some (-1)
  | 'b' => some (-1)
  | _ => none

/-- `DRUM_MAP` from src/grokmidi.py line 15. -/
def DRUM_MAP : Char → Option Int
  | 'K' => some 35
  | 'S' => some 38
  | 'H' => some 42
  | _ => none

/-- `midi_from_str(note_str, c_scale)` from src/grokmidi.py lines 17-25.
`.ok none` is the Python `None` returned for a rest; `.error` models the
`IndexError`/`KeyError` raised on an empty string or unknown letter. -/
def midi_from_str (note_str : List Char) (c_scale : Int) : Except String (Option Int) :=
  if note_str.map Char.toUpper = ['R'] then .ok none
  else
    match note_str with
    | [] => .error "IndexError"
    | c :: rest =>
      match DRUM_MAP c.toUpper with
      | some p => .ok (some p)
      | none =>
        match NOTE_MAP c.toUpper with
        | none => .error "KeyError"
        | some b0 =>
          let md := rest.map Char.toLower
          let b1 :=
            match md with
            | [] => b0
            | m :: _ =>
              match ACC_MAP m with
              | some a => b0 + a
              | none => b0
          .ok (some (c_scale + b1 % 12))

/-- `staff_pos(letter, c_scale)` from src/grokmidi.py lines 27-30.
`none` models the `KeyError` on a letter outside `NOTE_MAP`. -/
def staff_pos (letter : Char) (c_scale : Int) : Option Int :=
  match DRUM_MAP letter with
  | some _ => some 6
  | none => (NOTE_MAP letter.toUpper).map (fun v => v + (Int.fdiv c_scale 12 - 4) * 7)

/-- `get_duration(val)` from src/grokmidi.py lines 37-39 (identical to
src/midigimp.py lines 55-57): beat length of a duration code, default 1. -/
def get_duration (val : String) : Rat :=
  if val = "1s" then 4
  else if val = "2" then 2
  else if val = "4s" then 1
  else if val = "8s" then 1/2
  else if val = "16s" then 1/4
  else if val = "32s" then 1/8
  else 1

/-- `get_midi_note(note_str, octave)` from src/midigimp.py lines 14-37.
Unlike `midi_from_str` it validates the letter and the whole modifier and
raises `ValueError` (modelled as `.error`) on bad input. -/
def get_midi_note (note_str : List Char) (octave : Int) : Except String (Option Int) :=
  if note_str.map Char.toUpper = ['R'] then .ok none
  else
    match note_str with
    | [] => .error "IndexError"
    | c :: rest =>
      let letter := c.toUpper
      let modifier := rest.map Char.toLower
      if letter ∉ (['A','B','C','D','E','F','G'] : List Char) then
        .error "Invalid note letter"
      else if modifier ≠ [] ∧ modifier ∉ ([['#'],['b'],['%']] : List (List Char)) then
        .error "Invalid modifier"
      else
        let b0 := (NOTE_MAP letter).getD 0
        let b1 :=
          if modifier = ['#'] then b0 + 1
          else if modifier = ['b'] ∨ modifier = ['%'] then b0 - 1
          else b0
        .ok (some ((octave + 1) * 12 + b1 % 12))

/-- `pos_map` inside `get_staff_position`, src/midigimp.py line 41:
the diatonic index of each letter. -/
def pos_map : Char → Option Int
  | 'C' => some 0
  | 'D' => some 1
  | 'E' => some 2
  | 'F' => some 3
  | 'G' => some 4
  | 'A' => some 5
  | 'B' => some 6
  | _ => none

/-- `get_staff_position(letter, octave)` from src/midigimp.py lines 40-42.
Its second argument is the octave number itself (the callers pass
`riff['octave']`), not a pitch anchor. -/
def get_staff_position (letter : Char) (octave : Int) : Option Int :=
  (pos_map letter).map (fun v => v + (octave - 4) * 7)

/-- Python `str.split(sep)`: every separator occurrence starts a new
(possibly empty) field; the empty string splits to one empty field. -/
def py_split_on (sep : Char) : List Char → List (List Char)
  | [] => [[]]
  | c :: rest =>
    let r := py_split_on sep rest
    if c = sep then [] :: r
    else
      match r with
      | g :: gs => (c :: g) :: gs
      | [] => [[c]]

/-- Python `str.strip()` for the space character. -/
def py_strip (cs : List Char) : List Char :=
  ((cs.dropWhile (· = ' ')).reverse.dropWhile (· = ' ')).reverse

/-- Python `str.split()` (no argument): split on whitespace runs,
dropping empty fields. -/
def py_split_ws (cs : List Char) : List (List Char) :=
  (py_split_on ' ' cs).filter (· ≠ [])

/-- One phrase record, the `riff` dict of `RiffCard` in src/grokmidi.py
line 145.  The `text` field models the extra `'text'` key that a
`save_state` snapshot carries (line 171) and that `riff.update(prev)`
copies back into the record on undo/redo; `none` means the key is
absent. -/
structure Riff where
  notes : List (List Char)
  duration : String
  c_scale : Int
  strum : Bool
  text : Option (List Char) := none
deriving DecidableEq

/-- One scheduled note, the arguments of `midi.addNote` in
src/grokmidi.py line 431/474 that the claims speak about. -/
structure Event where
  pitch : Int
  start : Rat
  len : Rat
  vel : Int
deriving DecidableEq

/-- The inner `for j, p in enumerate(pitches)` loop of
`CardWriterApp._play_midi` / `export_midi` (src/grokmidi.py lines
428-431 / 471-474): skip `None`, emit the j-th subnote at
`time_pos + delay * j` with length `dur` and velocity 100. -/
def emitAux (t0 dur delay : Rat) : Nat → List (Option Int) → List Event
  | _, [] => []
  | j, none :: rest => emitAux t0 dur delay (j + 1) rest
  | j, some p :: rest => ⟨p, t0 + delay * j, dur, 100⟩ :: emitAux t0 dur delay (j + 1) rest

/-- Events of one sounding token whose resolved subnote pitches are `ps`. -/
def emit (ps : List (Option Int)) (t0 dur delay : Rat) : List Event :=
  emitAux t0 dur delay 0 ps

/-- The `for ng in riff['notes']` loop of src/grokmidi.py lines 466-475:
a rest advances the cursor and emits nothing; otherwise the token is
split on `'+'`, every subnote pitch is resolved (a resolution error
aborts, as the Python `KeyError` would), events are emitted, and the
cursor advances by `dur` once per token. -/
def run_toks (dur delay : Rat) (c : Int) : Rat → List (List Char) → Except String (List Event × Rat)
  | t, [] => .ok ([], t)
  | t, ng :: rest =>
    if ng.map Char.toUpper = ['R'] then run_toks dur delay c (t + dur) rest
    else
      match (py_split_on '+' ng).mapM (fun s => midi_from_str s c) with
      | .error e => .error e
      | .ok ps =>
        match run_toks dur delay c (t + dur) rest with
        | .error e => .error e
        | .ok (evs, tEnd) => .ok (emit ps t dur delay ++ evs, tEnd)

/-- The `for card in track...` loop of `export_midi` (src/grokmidi.py
lines 459-475) for one track: phrases with an empty note list are
skipped, every other phrase is scheduled with its own duration and strum
delay (0.03 beats when the strum flag is set), threading the running
beat cursor. -/
def run_cards (c : Int) : Rat → List Riff → Except String (List Event × Rat)
  | t, [] => .ok ([], t)
  | t, r :: rest =>
    if r.notes = [] then run_cards c t rest
    else
      match run_toks (get_duration r.duration) (if r.strum then 3/100 else 0) c t r.notes with
      | .error e => .error e
      | .ok (evs, t') =>
        match run_cards c t' rest with
        | .error e => .error e
        | .ok (evs', tEnd) => .ok (evs ++ evs', tEnd)

instance {ε α : Type} [DecidableEq ε] [DecidableEq α] : DecidableEq (Except ε α) := fun a b =>
  match a, b with
  | .ok x, .ok y => if h : x = y then .isTrue (by rw [h]) else .isFalse (by simp [h])
  | .error e, .error f => if h : e = f then .isTrue (by rw [h]) else .isFalse (by simp [h])
  | .ok _, .error _ => .isFalse (by simp)
  | .error _, .ok _ => .isFalse (by simp)

/-- C1: for a letter of the diatonic alphabet with an optional accidental,
`midi_from_str` adds 1 for `#` and subtracts 1 for `b`/`B`, reduces the
offset mod 12 into `[0,12)`, and adds the scale anchor; in particular
`midi_from_str "C" 60 = 60`, `midi_from_str "C#" 60 = 61` and
`midi_from_str "Cb" 60 = 71` (the flat wraps up to pitch class 11). -/
theorem claim_C1 (L acc : Char) (n : Int)
    (hL : L ∈ (['C','D','E','F','G','A','B'] : List Char))
    (hacc : acc ∈ (['#','b','B'] : List Char)) :
    midi_from_str [L] n = .ok (some (n + ((NOTE_MAP L).getD 0) % 12)) ∧
    midi_from_str [L, acc] n
      = .ok (some (n + ((NOTE_MAP L).getD 0 + (if acc = '#' then 1 else -1)) % 12)) ∧
    midi_from_str ['C'] 60 = .ok (some 60) ∧
    midi_from_str ['C', '#'] 60 = .ok (some 61) ∧
    midi_from_str ['C', 'b'] 60 = .ok (some 71) := by
  fin_cases hL <;> fin_cases hacc <;> exact ⟨rfl, rfl, rfl, rfl, rfl⟩

/-- Witness for C1 at `L = 'C'`, `acc = '#'`, `n = 60`. -/
theorem claim_C1_w :
    midi_from_str ['C'] 60 = .ok (some (60 + ((NOTE_MAP 'C').getD 0) % 12)) ∧
    midi_from_str ['C', '#'] 60
      = .ok (some (60 + ((NOTE_MAP 'C').getD 0 + (if '#' = '#' then 1 else -1)) % 12)) ∧
    midi_from_str ['C'] 60 = .ok (some 60) ∧
    midi_from_str ['C', '#'] 60 = .ok (some 61) ∧
    midi_from_str ['C', 'b'] 60 = .ok (some 71) :=
  claim_C1 'C' '#' 60 (by decide) (by decide)

/-- C2 counterexample: `staff_pos` does not use a diatonic 0..6 index with
octave origin at anchor 48..59 relabelled 4; concretely
`staff_pos 'C' 60 = 7` (the claim asserts 0), `staff_pos 'C' 72 = 14`
(the claim asserts 7), and `staff_pos 'E' 48 = 4` (a diatonic index would
put E two steps above C, yet the code uses the chromatic semitone 4). -/
theorem claim_C2_cex :
    staff_pos 'C' 60 = some 7 ∧ staff_pos 'C' 60 ≠ some 0 ∧
    staff_pos 'C' 72 = some 14 ∧ staff_pos 'C' 72 ≠ some 7 ∧
    staff_pos 'E' 48 = some 4 ∧ staff_pos 'E' 48 ≠ some 2 := by
  refine ⟨rfl, ?_, rfl, ?_, rfl, ?_⟩ <;> decide

/-- C2 amended: `staff_pos(L, n)` in src/grokmidi.py equals the chromatic
semitone index of `L` (C,D,E,F,G,A,B mapped to 0,2,4,5,7,9,11) plus
`(n / 12 - 4) * 7` with floor division, so `staff_pos('C', 48) = 0` and
`staff_pos('C', 60) = 7`; `get_staff_position(L, oc)` in src/midigimp.py
uses the diatonic 0..6 index but takes the octave number `oc` directly
(not an anchor divided by 12), so `get_staff_position('C', 4) = 0` and
`get_staff_position('C', 5) = 7`. -/
theorem claim_C2_amended (L : Char) (n oc : Int)
    (hL : L ∈ (['C','D','E','F','G','A','B'] : List Char)) :
    staff_pos L n = some ((NOTE_MAP L).getD 0 + (Int.fdiv n 12 - 4) * 7) ∧
    get_staff_position L oc = some ((pos_map L).getD 0 + (oc - 4) * 7) ∧
    staff_pos 'C' 48 = some 0 ∧ staff_pos 'C' 60 = some 7 ∧
    get_staff_position 'C' 4 = some 0 ∧ get_staff_position 'C' 5 = some 7 := by
  fin_cases hL <;> exact ⟨rfl, rfl, by decide, by decide, by decide, by decide⟩

/-- Witness for the amended C2 at `L = 'C'`, `n = 60`, `oc = 4`. -/
theorem claim_C2_amended_w :
    staff_pos 'C' 60 = some ((NOTE_MAP 'C').getD 0 + (Int.fdiv 60 12 - 4) * 7) ∧
    get_staff_position 'C' 4 = some ((pos_map 'C').getD 0 + ((4 : Int) - 4) * 7) ∧
    staff_pos 'C' 48 = some 0 ∧ staff_pos 'C' 60 = some 7 ∧
    get_staff_position 'C' 4 = some 0 ∧ get_staff_position 'C' 5 = some 7 :=
  claim_C2_amended 'C' 60 4 (by decide)

theorem run_toks_cursor (dur delay : Rat) (c : Int) (toks : List (List Char)) :
    ∀ (t : Rat) (evs : List Event) (tEnd : Rat),
      run_toks dur delay c t toks = .ok (evs, tEnd) →
      tEnd = t + toks.length * dur := by
  induction toks with
  | nil =>
    intro t evs tEnd h
    simp [run_toks] at h
    simp [h.2]
  | cons ng rest ih =>
    intro t evs tEnd h
    rw [run_toks] at h
    by_cases hr : ng.map Char.toUpper = ['R']
    · rw [if_pos hr] at h
      have := ih _ _ _ h
      rw [this]
      simp only [List.length_cons]
      push_cast
      ring
    · rw [if_neg hr] at h
      cases hm : (py_split_on '+' ng).mapM (fun s => midi_from_str s c) with
      | error e => simp only [hm] at h; cases h
      | ok ps =>
        simp only [hm] at h
        cases hrec : run_toks dur delay c (t + dur) rest with
        | error e => simp only [hrec] at h; cases h
        | ok pr =>
          obtain ⟨evs2, tEnd2⟩ := pr
          simp only [hrec, Except.ok.injEq, Prod.mk.injEq] at h
          obtain ⟨-, h2⟩ := h
          have := ih _ _ _ hrec
          rw [← h2, this]
          simp only [List.length_cons]
          push_cast
          ring

theorem run_cards_cursor (c : Int) (cards : List Riff) :
    ∀ (t : Rat) (evs : List Event) (tEnd : Rat),
      run_cards c t cards = .ok (evs, tEnd) →
      tEnd = t + (cards.map (fun r => (r.notes.length : Rat) * get_duration r.duration)).sum := by
  induction cards with
  | nil =>
    intro t evs tEnd h
    simp [run_cards] at h
    simp [h.2]
  | cons r rest ih =>
    intro t evs tEnd h
    rw [run_cards] at h
    by_cases hempty : r.notes = []
    · rw [if_pos hempty] at h
      have := ih _ _ _ h
      simp [this, hempty]
    · rw [if_neg hempty] at h
      cases hto : run_toks (get_duration r.duration) (if r.strum then 3/100 else 0) c t r.notes with
      | error e => simp only [hto] at h; cases h
      | ok pr =>
        obtain ⟨evs1, t1⟩ := pr
        simp only [hto] at h
        cases hrec : run_cards c t1 rest with
        | error e => simp only [hrec] at h; cases h
        | ok pr2 =>
          obtain ⟨evs2, tEnd2⟩ := pr2
          simp only [hrec, Except.ok.injEq, Prod.mk.injEq] at h
          obtain ⟨-, h2⟩ := h
          have h3 := run_toks_cursor _ _ _ _ _ _ _ hto
          have h4 := ih _ _ _ hrec
          rw [← h2, h4, h3]
          simp only [List.map_cons, List.sum_cons]
          ring

/-- C3: whenever timeline assembly of a track succeeds, the track's
ending beat cursor equals the sum of `get_duration` over every token of
every phrase in order: rests advance the cursor like sounding tokens and
a chord advances it exactly once however many subnotes it emits. -/
theorem claim_C3 (c : Int) (cards : List Riff) (evs : List Event) (tEnd : Rat)
    (h : run_cards c 0 cards = .ok (evs, tEnd)) :
    tEnd = (cards.map (fun r => (r.notes.length : Rat) * get_duration r.duration)).sum := by
  have := run_cards_cursor c cards 0 evs tEnd h
  simpa using this

/-- The spec's worked example: one phrase `C R E+G`, all quarter notes. -/
def C3card : Riff := ⟨[['C'], ['R'], ['E', '+', 'G']], "4s", 60, false, none⟩

/-- Witness for C3 on the phrase `C R E+G` of quarter notes: the track
ends at beat 3 (the unreduced sum `0 + 1 + 1 + 1`). -/
theorem claim_C3_w :
    (0 + 1 + 1 + 1 : Rat) =
      ([C3card].map (fun r => (r.notes.length : Rat) * get_duration r.duration)).sum :=
  claim_C3 60 [C3card]
    [⟨60, 0 + 0 * 0, 1, 100⟩,
     ⟨64, 0 + 1 + 1 + 0 * 0, 1, 100⟩,
     ⟨67, 0 + 1 + 1 + 0 * 1, 1, 100⟩] (0 + 1 + 1 + 1) rfl

theorem emitAux_mem (t0 dur delay : Rat) :
    ∀ (ps : List (Option Int)) (j0 j : Nat) (p : Int),
      ps.get? j = some (some p) →
      (⟨p, t0 + delay * ((j0 + j : Nat) : Rat), dur, 100⟩ : Event) ∈ emitAux t0 dur delay j0 ps := by
  intro ps
  induction ps with
  | nil => intro j0 j p h; simp at h
  | cons q rest ih =>
    intro j0 j p h
    cases j with
    | zero =>
      simp only [List.get?] at h
      rw [Option.some.injEq] at h
      subst h
      rw [Nat.add_zero]
      exact List.mem_cons_self _ _
    | succ j' =>
      simp only [List.get?] at h
      have hstep : j0 + (j' + 1) = (j0 + 1) + j' := by omega
      rw [hstep]
      cases q with
      | none => exact ih (j0 + 1) j' p h
      | some q' => exact List.mem_cons_of_mem _ (ih (j0 + 1) j' p h)

theorem emitAux_len (t0 dur delay : Rat) :
    ∀ (ps : List (Option Int)) (j0 : Nat) (e : Event),
      e ∈ emitAux t0 dur delay j0 ps → e.len = dur := by
  intro ps
  induction ps with
  | nil => intro j0 e h; simp [emitAux] at h
  | cons q rest ih =>
    intro j0 e h
    cases q with
    | none => exact ih (j0 + 1) e h
    | some q' =>
      rcases List.mem_cons.mp h with h1 | h2
      · rw [h1]
      · exact ih (j0 + 1) e h2

theorem dur_code_lb (code : String)
    (h : code ∈ (["1s", "2", "4s", "8s", "16s", "32s"] : List String)) :
    (3/50 : Rat) < get_duration code := by
  fin_cases h <;> (simp [get_duration]; try norm_num)

/-- C6: for a strummed chord token, the `j`-th subnote (0-based, written
order) is emitted at start beat `cursor + 0.03 * j`, every emitted event
has length `get_duration duration` whatever the stagger, and for a
3-subnote strummed chord with any duration code from the table the 2nd
and 3rd subnotes start strictly after the 1st and strictly before the
1st's start plus the token's beat length. -/
theorem claim_C6 (ng : List Char) (c : Int) (ps : List (Option Int)) (t dur : Rat)
    (j : Nat) (p : Int)
    (hng : ng.map Char.toUpper ≠ ['R'])
    (hm : (py_split_on '+' ng).mapM (fun s => midi_from_str s c) = .ok ps)
    (hj : ps.get? j = some (some p)) :
    run_toks dur (3/100) c t [ng] = .ok (emit ps t dur (3/100), t + dur) ∧
    (⟨p, t + 3/100 * ((j : Nat) : Rat), dur, 100⟩ : Event) ∈ emit ps t dur (3/100) ∧
    (∀ (delay : Rat) (e : Event), e ∈ emit ps t dur delay → e.len = dur) ∧
    (∀ (p1 p2 p3 : Int) (code : String),
      code ∈ (["1s", "2", "4s", "8s", "16s", "32s"] : List String) →
      emit [some p1, some p2, some p3] t (get_duration code) (3/100) =
        [⟨p1, t + 3/100 * ((0 : Nat) : Rat), get_duration code, 100⟩,
         ⟨p2, t + 3/100 * ((1 : Nat) : Rat), get_duration code, 100⟩,
         ⟨p3, t + 3/100 * ((2 : Nat) : Rat), get_duration code, 100⟩] ∧
      t + 3/100 * ((0 : Nat) : Rat) < t + 3/100 * ((1 : Nat) : Rat) ∧
      t + 3/100 * ((0 : Nat) : Rat) < t + 3/100 * ((2 : Nat) : Rat) ∧
      t + 3/100 * ((1 : Nat) : Rat) < t + 3/100 * ((0 : Nat) : Rat) + get_duration code ∧
      t + 3/100 * ((2 : Nat) : Rat) < t + 3/100 * ((0 : Nat) : Rat) + get_duration code) := by
  refine ⟨?_, ?_, ?_, ?_⟩
  · rw [run_toks, if_neg hng, hm, run_toks]
    simp [List.append_nil]
  · have := emitAux_mem t dur (3/100) ps 0 j p hj
    simpa using this
  · intro delay e he
    exact emitAux_len t dur delay ps 0 e he
  · intro p1 p2 p3 code hcode
    have hd := dur_code_lb code hcode
    refine ⟨rfl, ?_, ?_, ?_, ?_⟩ <;> (push_cast; linarith)

/-- Witness for C6: the chord `E+G` at anchor 60, cursor 0, quarter
duration; its 2nd subnote `G` is emitted at start beat `0.03`. -/
theorem claim_C6_w :
    (⟨67, 0 + 3/100 * (((1 : Nat)) : Rat), 1, 100⟩ : Event)
      ∈ emit [some 64, some 67] 0 1 (3/100) :=
  (claim_C6 ['E', '+', 'G'] 60 [some 64, some 67] 0 1 1 67 (by decide) rfl rfl).2.1

/-- C8: the duration table maps the six codes to 4, 2, 1, 1/2, 1/4, 1/8
beats and every other string to the quarter-note default 1, without
failing. -/
theorem claim_C8 (s : String)
    (h : s ∉ (["1s", "2", "4s", "8s", "16s", "32s"] : List String)) :
    get_duration "1s" = 4 ∧ get_duration "2" = 2 ∧ get_duration "4s" = 1 ∧
    get_duration "8s" = 1/2 ∧ get_duration "16s" = 1/4 ∧ get_duration "32s" = 1/8 ∧
    get_duration s = 1 := by
  simp only [List.mem_cons, List.not_mem_nil, or_false] at h
  push_neg at h
  obtain ⟨h1, h2, h3, h4, h5, h6⟩ := h
  exact ⟨by simp [get_duration], by simp [get_duration], by simp [get_duration],
    by simp [get_duration], by simp [get_duration], by simp [get_duration],
    by simp [get_duration, h1, h2, h3, h4, h5, h6]⟩

/-- Witness for C8 at the unrecognized code `"unknown"`. -/
theorem claim_C8_w :
    get_duration "1s" = 4 ∧ get_duration "2" = 2 ∧ get_duration "4s" = 1 ∧
    get_duration "8s" = 1/2 ∧ get_duration "16s" = 1/4 ∧ get_duration "32s" = 1/8 ∧
    get_duration "unknown" = 1 :=
  claim_C8 "unknown" (by decide)

/-- C9: for every diatonic letter with an optional accidental, the pitch
class of the resolved pitch is invariant under shifting the anchor by one
octave: `midi_from_str s n % 12 = midi_from_str s (n + 12) % 12`. -/
theorem claim_C9 (L acc : Char) (n : Int)
    (hL : L ∈ (['C','D','E','F','G','A','B'] : List Char))
    (hacc : acc ∈ (['#','b','B'] : List Char)) :
    (∃ p q : Int, midi_from_str [L] n = .ok (some p) ∧
      midi_from_str [L] (n + 12) = .ok (some q) ∧ p % 12 = q % 12) ∧
    (∃ p q : Int, midi_from_str [L, acc] n = .ok (some p) ∧
      midi_from_str [L, acc] (n + 12) = .ok (some q) ∧ p % 12 = q % 12) := by
  fin_cases hL <;> fin_cases hacc <;>
    exact ⟨⟨_, _, rfl, rfl, by omega⟩, ⟨_, _, rfl, rfl, by omega⟩⟩

/-- Witness for C9 at `L = 'C'`, `acc = 'b'`, `n = 60`. -/
theorem claim_C9_w :
    (∃ p q : Int, midi_from_str ['C'] 60 = .ok (some p) ∧
      midi_from_str ['C'] (60 + 12) = .ok (some q) ∧ p % 12 = q % 12) ∧
    (∃ p q : Int, midi_from_str ['C', 'b'] 60 = .ok (some p) ∧
      midi_from_str ['C', 'b'] (60 + 12) = .ok (some q) ∧ p % 12 = q % 12) :=
  claim_C9 'C' 'b' 60 (by decide) (by decide)

/-- Python `dict.update`: every key present in `s` overwrites the one in
`r`; the four schema keys are always present, the `text` key only when
`s` carries it. -/
def dictUpdate (r s : Riff) : Riff :=
  { notes := s.notes, duration := s.duration, c_scale := s.c_scale, strum := s.strum,
    text := match s.text with | some tx => some tx | none => r.text }

/-- The mutable pieces of one `RiffCard` (src/grokmidi.py lines 139-257)
the claims are about: the phrase record, the undo and redo stacks (top at
the head), the text entry, the strum checkbox, and the
`app.song_data[track][idx]` slot that `save_song` serializes.  At card
creation (line 292) that slot *aliases* the live `riff` dict, so
in-place mutations of the record are visible through it; the first
non-blank commit (line 255) replaces the slot with an independent copy.
`slot_copy = none` models the aliased state, `slot_copy = some r` the
state after a commit stored the copy `r`. -/
structure CardState where
  riff : Riff
  history : List Riff
  redo_stack : List Riff
  entry : List Char
  strum_var : Bool
  slot_copy : Option Riff
deriving DecidableEq

/-- The record `save_song` would serialize for this card: the stored
copy once a commit has decoupled the slot, otherwise the live `riff`
dict itself (the alias of src/grokmidi.py line 292). -/
def song_record (s : CardState) : Riff :=
  s.slot_copy.getD s.riff

/-- `RiffCard.save_state` (src/grokmidi.py lines 169-174): snapshot the
record plus the entry text and strum flag, push it, clear the redo
stack. -/
def save_state (s : CardState) : CardState :=
  let st : Riff := { s.riff with text := some s.entry, strum := s.strum_var }
  { s with history := st :: s.history, redo_stack := [] }

/-- `RiffCard.undo` (src/grokmidi.py lines 176-185): no-op unless the
undo stack has more than one entry; otherwise pop the top onto the redo
stack and restore the new top. -/
def undo (s : CardState) : CardState :=
  match s.history with
  | top :: prev :: rest =>
    { s with history := prev :: rest,
             redo_stack := top :: s.redo_stack,
             riff := dictUpdate s.riff prev,
             entry := prev.text.getD [],
             strum_var := prev.strum }
  | _ => s

/-- `RiffCard.redo` (src/grokmidi.py lines 187-196): no-op on an empty
redo stack; otherwise pop one entry, push it back onto the undo stack,
and restore it. -/
def redo (s : CardState) : CardState :=
  match s.redo_stack with
  | st :: rest =>
    { s with redo_stack := rest,
             history := st :: s.history,
             riff := dictUpdate s.riff st,
             entry := st.text.getD [],
             strum_var := st.strum }
  | [] => s

/-- `RiffCard.save_riff` (src/grokmidi.py lines 247-257): snapshot, then
commit the entry text into the record (notes from the split text,
duration forced to `'4s'`, strum from the checkbox) and store a copy of
the record into the song-data slot (line 255, which ends any aliasing);
a blank entry stops after the snapshot and leaves the slot as it was. -/
def save_riff (s : CardState) : CardState :=
  let s1 := save_state s
  let txt := py_strip s1.entry
  if txt = [] then s1
  else
    let notes := py_split_ws txt
    let riff' := { s1.riff with notes := notes, duration := "4s", strum := s1.strum_var }
    { s1 with riff := riff', slot_copy := some riff' }

/-- The user-visible operations on one card that the history claims
quantify over. -/
inductive Op where
  | setEntry : List Char → Op
  | setStrum : Bool → Op
  | saveRiff : Op
  | undoOp : Op
  | redoOp : Op
deriving DecidableEq

def applyOp (s : CardState) : Op → CardState
  | .setEntry cs => { s with entry := cs }
  | .setStrum b => { s with strum_var := b }
  | .saveRiff => save_riff s
  | .undoOp => undo s
  | .redoOp => redo s

def runOps (s : CardState) (ops : List Op) : CardState :=
  ops.foldl applyOp s

/-- A freshly created card (src/grokmidi.py lines 145-147); line 292
makes the song-data slot an alias of the live record (`slot_copy :=
none`), not a copy. -/
def initCard : CardState :=
  let r : Riff := { notes := [], duration := "4s", c_scale := 60, strum := false, text := none }
  { riff := r, history := [], redo_stack := [], entry := [], strum_var := false,
    slot_copy := none }

theorem dictUpdate_some (r s : Riff) (tx : List Char) (h : s.text = some tx) :
    dictUpdate r s = s := by
  obtain ⟨n, d, cs, st, txt⟩ := s
  simp only [dictUpdate]
  simp only at h
  subst h
  rfl

/-- C4: `undo` is a no-op when the undo stack has at most one entry and
otherwise pops the top onto the redo stack and restores the new top;
`redo` is a no-op on an empty redo stack and otherwise pops one entry,
pushes it back onto the undo stack and restores it; every snapshot
clears the redo stack; and with snapshots S0, S1, S2 taken in that
order, undo restores S1, a second undo restores S0, a third undo is a
no-op, and redo then restores S1. -/
theorem claim_C4 (s : CardState) (σ0 σ1 σ2 : Riff) (e0 e1 : List Char)
    (hh : s.history = [σ2, σ1, σ0])
    (h0 : σ0.text = some e0) (h1 : σ1.text = some e1) :
    (∀ s' : CardState, s'.history.length ≤ 1 → undo s' = s') ∧
    (∀ (s' : CardState) (top prev : Riff) (rest : List Riff),
      s'.history = top :: prev :: rest →
      undo s' = { s' with
                    history := prev :: rest,
                    redo_stack := top :: s'.redo_stack,
                    riff := dictUpdate s'.riff prev,
                    entry := prev.text.getD [],
                    strum_var := prev.strum }) ∧
    (∀ s' : CardState, s'.redo_stack = [] → redo s' = s') ∧
    (∀ (s' : CardState) (st : Riff) (rest : List Riff),
      s'.redo_stack = st :: rest →
      redo s' = { s' with
                    redo_stack := rest,
                    history := st :: s'.history,
                    riff := dictUpdate s'.riff st,
                    entry := st.text.getD [],
                    strum_var := st.strum }) ∧
    (∀ s' : CardState, (save_state s').redo_stack = []) ∧
    (undo s).riff = σ1 ∧
    (undo (undo s)).riff = σ0 ∧
    undo (undo (undo s)) = undo (undo s) ∧
    (redo (undo (undo s))).riff = σ1 := by
  obtain ⟨r, h, rd, en, sv, sl⟩ := s
  simp only at hh
  subst hh
  refine ⟨?_, ?_, ?_, ?_, ?_, ?_, ?_, ?_, ?_⟩
  · intro s'
    obtain ⟨r', h', rd', en', sv', sl'⟩ := s'
    match h' with
    | [] => intro _; rfl
    | [x] => intro _; rfl
    | x :: y :: rest => intro hlen; simp at hlen
  · intro s' top prev rest hh'
    obtain ⟨r', h', rd', en', sv', sl'⟩ := s'
    simp only at hh'
    subst hh'
    rfl
  · intro s' hrd
    obtain ⟨r', h', rd', en', sv', sl'⟩ := s'
    simp only at hrd
    subst hrd
    rfl
  · intro s' st rest hrd
    obtain ⟨r', h', rd', en', sv', sl'⟩ := s'
    simp only at hrd
    subst hrd
    rfl
  · intro s'; rfl
  · show dictUpdate r σ1 = σ1
    exact dictUpdate_some _ _ _ h1
  · show dictUpdate (dictUpdate r σ1) σ0 = σ0
    exact dictUpdate_some _ _ _ h0
  · rfl
  · show dictUpdate (dictUpdate (dictUpdate r σ1) σ0) σ1 = σ1
    exact dictUpdate_some _ _ _ h1

/-- Baseline snapshot S0 for the C4 witness. -/
def C4snap0 : Riff := ⟨[], "4s", 60, false, some []⟩

/-- Snapshot S1 for the C4 witness. -/
def C4snap1 : Riff := ⟨[['C']], "4s", 60, false, some ['C']⟩

/-- Snapshot S2 for the C4 witness. -/
def C4snap2 : Riff := ⟨[['D']], "4s", 60, false, some ['D']⟩

/-- A card that has taken snapshots S0, S1, S2 in that order. -/
def C4state : CardState := ⟨C4snap2, [C4snap2, C4snap1, C4snap0], [], ['D'], false, some C4snap2⟩

/-- Witness for C4 on a concrete three-snapshot history. -/
theorem claim_C4_w :
    (undo C4state).riff = C4snap1 ∧ (undo (undo C4state)).riff = C4snap0 ∧
    undo (undo (undo C4state)) = undo (undo C4state) ∧
    (redo (undo (undo C4state))).riff = C4snap1 := by
  have h := claim_C4 C4state C4snap0 C4snap1 C4snap2 [] ['C'] rfl rfl rfl
  exact ⟨h.2.2.2.2.2.1, h.2.2.2.2.2.2.1, h.2.2.2.2.2.2.2.1, h.2.2.2.2.2.2.2.2⟩

/-- C10: committing a non-blank entry text always overwrites the
phrase's duration code to `'4s'`, whatever it was before, both in the
card's record and in the record the save file would receive. -/
theorem claim_C10 (s : CardState) (h : py_strip s.entry ≠ []) :
    (save_riff s).riff.duration = "4s" ∧ (song_record (save_riff s)).duration = "4s" := by
  obtain ⟨r, hh, rd, en, sv, sl⟩ := s
  simp only at h
  simp only [save_riff, save_state, song_record]
  rw [if_neg h]
  exact ⟨rfl, rfl⟩

/-- A card whose phrase currently has duration `'8s'`. -/
def C10state : CardState :=
  { riff := ⟨[], "8s", 60, false, none⟩, history := [], redo_stack := [],
    entry := ['C'], strum_var := false, slot_copy := some ⟨[], "8s", 60, false, none⟩ }

/-- Witness for C10: committing the entry `"C"` on an `'8s'` phrase
forces the duration back to `'4s'`. -/
theorem claim_C10_w :
    (save_riff C10state).riff.duration = "4s" ∧
    (song_record (save_riff C10state)).duration = "4s" :=
  claim_C10 C10state (by decide)

/-- C7 counterexample: commit `"C"`, commit `"D"`, undo, and commit
again; the song-data record that `save_song` would serialize now carries
the History Snapshot's ancillary `'text'` key (value `"C"`), so the
persisted record does not consist of exactly the four schema fields. -/
theorem claim_C7_cex :
    (song_record (runOps initCard
      [.setEntry ['C'], .saveRiff, .setEntry ['D'], .saveRiff, .undoOp, .saveRiff]
    )).text = some ['C'] := by
  decide

theorem save_riff_text (s : CardState) :
    (save_riff s).riff.text = s.riff.text ∧
    ((save_riff s).slot_copy = s.slot_copy ∨
      ∃ r, (save_riff s).slot_copy = some r ∧ r.text = s.riff.text) := by
  obtain ⟨r, hh, rd, en, sv, sl⟩ := s
  simp only [save_riff, save_state]
  by_cases hc : py_strip en = []
  · rw [if_pos hc]
    exact ⟨rfl, Or.inl rfl⟩
  · rw [if_neg hc]
    exact ⟨rfl, Or.inr ⟨_, rfl, rfl⟩⟩

theorem undo_slot (s : CardState) : (undo s).slot_copy = s.slot_copy := by
  obtain ⟨r, h, rd, en, sv, sl⟩ := s
  match h with
  | [] => rfl
  | [x] => rfl
  | x :: y :: t => rfl

theorem redo_slot (s : CardState) : (redo s).slot_copy = s.slot_copy := by
  obtain ⟨r, h, rd, en, sv, sl⟩ := s
  match rd with
  | [] => rfl
  | x :: t => rfl

theorem no_undo_inv (ops : List Op) :
    ∀ (s : CardState), s.riff.text = none →
      (∀ r, s.slot_copy = some r → r.text = none) →
      (∀ op ∈ ops, op ≠ Op.undoOp ∧ op ≠ Op.redoOp) →
      (runOps s ops).riff.text = none ∧
      (∀ r, (runOps s ops).slot_copy = some r → r.text = none) := by
  induction ops with
  | nil => intro s h1 h2 _; exact ⟨h1, h2⟩
  | cons op rest ih =>
    intro s h1 h2 hops
    have hop := hops op (List.mem_cons_self _ _)
    have hrest : ∀ op' ∈ rest, op' ≠ Op.undoOp ∧ op' ≠ Op.redoOp :=
      fun op' hm => hops op' (List.mem_cons_of_mem _ hm)
    show (runOps (applyOp s op) rest).riff.text = none ∧
      (∀ r, (runOps (applyOp s op) rest).slot_copy = some r → r.text = none)
    cases op with
    | setEntry cs => exact ih _ h1 h2 hrest
    | setStrum b => exact ih _ h1 h2 hrest
    | saveRiff =>
      obtain ⟨ha, hb⟩ := save_riff_text s
      refine ih _ (show (save_riff s).riff.text = none by rw [ha]; exact h1) ?_ hrest
      show ∀ r, (save_riff s).slot_copy = some r → r.text = none
      rcases hb with hb | ⟨r0, hs0, ht0⟩
      · intro r hr
        rw [hb] at hr
        exact h2 r hr
      · intro r hr
        rw [hs0, Option.some.injEq] at hr
        subst hr
        rw [ht0]
        exact h1
    | undoOp => exact absurd rfl hop.1
    | redoOp => exact absurd rfl hop.2

theorem post_slot_frozen (ops : List Op) :
    ∀ (s : CardState), (∀ op ∈ ops, op ≠ Op.saveRiff) →
      (runOps s ops).slot_copy = s.slot_copy := by
  induction ops with
  | nil => intro s _; rfl
  | cons op rest ih =>
    intro s hops
    have hop := hops op (List.mem_cons_self _ _)
    have hrest : ∀ op' ∈ rest, op' ≠ Op.saveRiff :=
      fun op' hm => hops op' (List.mem_cons_of_mem _ hm)
    show (runOps (applyOp s op) rest).slot_copy = s.slot_copy
    cases op with
    | setEntry cs => rw [ih _ hrest]; rfl
    | setStrum b => rw [ih _ hrest]; rfl
    | saveRiff => exact absurd rfl hop
    | undoOp => rw [ih _ hrest]; exact undo_slot s
    | redoOp => rw [ih _ hrest]; exact redo_slot s

/-- C7 amended: the persisted record of a phrase consists of exactly the
four schema fields (no snapshot `'text'` key) provided every undo/redo
comes after the phrase's last commit AND, if any undo/redo occurs at
all, some non-blank commit has already decoupled the song-data slot from
the live record; the second conjunct shows the latter proviso is real —
with only blank saves in history (slot still aliased, src/grokmidi.py
line 292) a single undo dirties the persisted record with no commit at
all. -/
theorem claim_C7_amended (pre post : List Op)
    (hpre : ∀ op ∈ pre, op ≠ Op.undoOp ∧ op ≠ Op.redoOp)
    (hpost : ∀ op ∈ post, op ≠ Op.saveRiff)
    (hslot : (runOps initCard pre).slot_copy ≠ none ∨
      ∀ op ∈ post, op ≠ Op.undoOp ∧ op ≠ Op.redoOp) :
    (song_record (runOps initCard (pre ++ post))).text = none ∧
    (song_record (runOps initCard [.saveRiff, .saveRiff, .undoOp])).text = some [] := by
  constructor
  · have hsplit : runOps initCard (pre ++ post) = runOps (runOps initCard pre) post := by
      simp [runOps, List.foldl_append]
    rw [hsplit]
    have hinv := no_undo_inv pre initCard rfl (fun r hr => by simp [initCard] at hr) hpre
    rcases hslot with hdec | hnou
    · cases hsc : (runOps initCard pre).slot_copy with
      | none => exact absurd hsc hdec
      | some r =>
        have hrt := hinv.2 r hsc
        have hfr := post_slot_frozen post (runOps initCard pre) hpost
        rw [song_record, hfr, hsc]
        simpa using hrt
    · have hinv2 := no_undo_inv post (runOps initCard pre) hinv.1 hinv.2 hnou
      rw [song_record]
      cases hsc : (runOps (runOps initCard pre) post).slot_copy with
      | none => simpa using hinv2.1
      | some r => simpa using hinv2.2 r hsc
  · decide

/-- Witness for the amended C7: commit `"C"`, commit `"D"`, then a
trailing undo — the persisted record stays free of snapshot data because
the last commit already decoupled the slot. -/
theorem claim_C7_amended_w :
    (song_record (runOps initCard
      ([.setEntry ['C'], .saveRiff, .setEntry ['D'], .saveRiff] ++ [.undoOp]))).text = none ∧
    (song_record (runOps initCard [.saveRiff, .saveRiff, .undoOp])).text = some [] :=
  claim_C7_amended [.setEntry ['C'], .saveRiff, .setEntry ['D'], .saveRiff] [.undoOp]
    (by decide) (by decide) (Or.inl (by decide))

/-- The validation failures `MidiWriterApp._save_or_update_riff`
(src/midigimp.py lines 152-200) reports via a message box; each
constructor carries the offending element it names. -/
inductive ValErr where
  | emptyNotes : ValErr
  | invalidLetter : Char → List Char → ValErr
  | invalidModifier : Char → List Char → ValErr
  | tooLong : List Char → ValErr
deriving DecidableEq

/-- Outcome of running the validation loop over one element: it either
passes, returns after reporting a failure, or crashes with the uncaught
`IndexError` that `sub[0]` raises on an empty subnote (src/midigimp.py
line 170, e.g. the token `+X`) — a crash is not a reported failure. -/
inductive ValOutcome where
  | passed : ValOutcome
  | reported : ValErr → ValOutcome
  | crashed : ValOutcome
deriving DecidableEq

/-- The per-subnote checks of src/midigimp.py lines 169-181: letter in
`A..G`, second character (if any) a valid modifier, length at most 2; an
empty subnote crashes at `sub[0]` before any check runs. -/
def check_sub : List Char → ValOutcome
  | [] => .crashed
  | [c] =>
    if c.toUpper ∉ (['A','B','C','D','E','F','G'] : List Char) then
      .reported (.invalidLetter c.toUpper [c])
    else .passed
  | c :: m :: rest2 =>
    if c.toUpper ∉ (['A','B','C','D','E','F','G'] : List Char) then
      .reported (.invalidLetter c.toUpper (c :: m :: rest2))
    else if m.toLower ∉ (['#','b','%'] : List Char) then
      .reported (.invalidModifier m.toLower (c :: m :: rest2))
    else if rest2 ≠ [] then .reported (.tooLong (c :: m :: rest2))
    else .passed

/-- Outcome of the subnote loop of one token: the first non-passing
subnote decides (a report returns, a crash propagates). -/
def first_sub_out : List (List Char) → ValOutcome
  | [] => .passed
  | sub :: rest =>
    match check_sub sub with
    | .passed => first_sub_out rest
    | .reported e => .reported e
    | .crashed => .crashed

/-- Validation of one token: a lone `R` (any case) passes, anything else
is split on `'+'` and each subnote checked. -/
def check_group (ng : List Char) : ValOutcome :=
  if ng.map Char.toUpper = ['R'] then .passed
  else first_sub_out (py_split_on '+' ng)

/-- Outcome of the token loop of the whole phrase. -/
def first_group_out : List (List Char) → ValOutcome
  | [] => .passed
  | ng :: rest =>
    match check_group ng with
    | .passed => first_group_out rest
    | .reported e => .reported e
    | .crashed => .crashed

/-- One riff record of src/midigimp.py line 183. -/
structure MRiff where
  notes : List (List Char)
  duration : String
  octave : Int
  instrument : Int
deriving DecidableEq

/-- `MidiWriterApp._save_or_update_riff` with `add_new = True`
(src/midigimp.py lines 152-200): strip the entry, reject a blank entry,
validate every subnote of every token, and only on success append the
new riff record.  `.ok (riffs, some e)` is a reported validation
failure leaving the riff list unchanged; `.error` is the uncaught
`IndexError` escaping the handler (also leaving the list unchanged, but
reporting nothing). -/
def save_or_update_riff (riffs : List MRiff) (entry : List Char)
    (duration : String) (octave instrument : Int) :
    Except String (List MRiff × Option ValErr) :=
  let notes_str := py_strip entry
  if notes_str = [] then .ok (riffs, some .emptyNotes)
  else
    let notes := py_split_ws notes_str
    match first_group_out notes with
    | .crashed => .error "IndexError"
    | .reported e => .ok (riffs, some e)
    | .passed => .ok (riffs ++ [⟨notes, duration, octave, instrument⟩], none)

theorem check_sub_reported_ne_empty (sub : List Char) (e : ValErr)
    (h : check_sub sub = .reported e) : e ≠ ValErr.emptyNotes := by
  match sub with
  | [] =>
    rw [check_sub] at h
    cases h
  | [c] =>
    rw [check_sub] at h
    by_cases hc : c.toUpper ∉ (['A','B','C','D','E','F','G'] : List Char)
    · rw [if_pos hc] at h
      simp only [ValOutcome.reported.injEq] at h
      subst h
      simp
    · rw [if_neg hc] at h
      cases h
  | c :: m :: rest2 =>
    rw [check_sub] at h
    by_cases hc : c.toUpper ∉ (['A','B','C','D','E','F','G'] : List Char)
    · rw [if_pos hc] at h
      simp only [ValOutcome.reported.injEq] at h
      subst h
      simp
    · rw [if_neg hc] at h
      by_cases hm : m.toLower ∉ (['#','b','%'] : List Char)
      · rw [if_pos hm] at h
        simp only [ValOutcome.reported.injEq] at h
        subst h
        simp
      · rw [if_neg hm] at h
        by_cases h2 : rest2 ≠ []
        · rw [if_pos h2] at h
          simp only [ValOutcome.reported.injEq] at h
          subst h
          simp
        · rw [if_neg h2] at h
          cases h

theorem check_sub_cons_ne_crash (c : Char) (rest : List Char) :
    check_sub (c :: rest) ≠ ValOutcome.crashed := by
  match rest with
  | [] =>
    rw [check_sub]
    by_cases hc : c.toUpper ∉ (['A','B','C','D','E','F','G'] : List Char)
    · rw [if_pos hc]; simp
    · rw [if_neg hc]; simp
  | m :: r2 =>
    rw [check_sub]
    by_cases hc : c.toUpper ∉ (['A','B','C','D','E','F','G'] : List Char)
    · rw [if_pos hc]; simp
    · rw [if_neg hc]
      by_cases hm : m.toLower ∉ (['#','b','%'] : List Char)
      · rw [if_pos hm]; simp
      · rw [if_neg hm]
        by_cases h2 : r2 ≠ []
        · rw [if_pos h2]; simp
        · rw [if_neg h2]; simp

theorem check_sub_bad_letter (c : Char) (rest : List Char)
    (hc : c.toUpper ∉ (['A','B','C','D','E','F','G'] : List Char)) :
    ∃ e, check_sub (c :: rest) = ValOutcome.reported e := by
  match rest with
  | [] => exact ⟨_, by rw [check_sub, if_pos hc]⟩
  | m :: r2 => exact ⟨_, by rw [check_sub, if_pos hc]⟩

theorem first_sub_out_reported_ne_empty (subs : List (List Char)) (e : ValErr)
    (h : first_sub_out subs = .reported e) : e ≠ ValErr.emptyNotes := by
  induction subs with
  | nil => rw [first_sub_out] at h; cases h
  | cons s0 rest ih =>
    rw [first_sub_out] at h
    cases hs : check_sub s0 with
    | passed =>
      simp only [hs] at h
      exact ih h
    | reported e2 =>
      simp only [hs, ValOutcome.reported.injEq] at h
      subst h
      exact check_sub_reported_ne_empty s0 _ hs
    | crashed =>
      simp only [hs] at h
      cases h

theorem first_sub_out_nocrash (subs : List (List Char))
    (hne : ∀ sub ∈ subs, sub ≠ []) :
    first_sub_out subs ≠ ValOutcome.crashed := by
  induction subs with
  | nil => rw [first_sub_out]; simp
  | cons s0 rest ih =>
    rw [first_sub_out]
    cases hs : check_sub s0 with
    | passed =>
      simp only [hs]
      exact ih (fun sub hm => hne sub (List.mem_cons_of_mem _ hm))
    | reported e =>
      simp only [hs]
      simp
    | crashed =>
      exfalso
      have h0 : s0 ≠ [] := hne s0 (List.mem_cons_self _ _)
      cases s0 with
      | nil => exact h0 rfl
      | cons c r => exact check_sub_cons_ne_crash c r hs

theorem first_sub_out_reported (subs : List (List Char))
    (hne : ∀ sub ∈ subs, sub ≠ [])
    (hbad : ∃ sub ∈ subs, ∃ e, check_sub sub = ValOutcome.reported e) :
    ∃ e, first_sub_out subs = ValOutcome.reported e := by
  induction subs with
  | nil =>
    obtain ⟨sub, hm, -⟩ := hbad
    cases hm
  | cons s0 rest ih =>
    rw [first_sub_out]
    cases hs : check_sub s0 with
    | reported e => exact ⟨e, by simp only [hs]⟩
    | crashed =>
      exfalso
      have h0 : s0 ≠ [] := hne s0 (List.mem_cons_self _ _)
      cases s0 with
      | nil => exact h0 rfl
      | cons c0 r0 => exact check_sub_cons_ne_crash c0 r0 hs
    | passed =>
      simp only [hs]
      obtain ⟨sub, hm, e0, he0⟩ := hbad
      rcases List.mem_cons.mp hm with h | h
      · rw [h, hs] at he0
        cases he0
      · exact ih (fun sub2 hm2 => hne sub2 (List.mem_cons_of_mem _ hm2)) ⟨sub, h, e0, he0⟩

theorem first_group_out_reported (groups : List (List Char)) (ng : List Char)
    (hne : ∀ g ∈ groups, g.map Char.toUpper ≠ ['R'] →
      ∀ sub ∈ py_split_on '+' g, sub ≠ [])
    (hmem : ng ∈ groups)
    (hbad : ∃ e, check_group ng = ValOutcome.reported e) :
    ∃ e, first_group_out groups = ValOutcome.reported e ∧ e ≠ ValErr.emptyNotes := by
  induction groups with
  | nil => cases hmem
  | cons g0 rest ih =>
    rw [first_group_out]
    cases hg : check_group g0 with
    | reported e =>
      refine ⟨e, by simp only [hg], ?_⟩
      rw [check_group] at hg
      by_cases hr : g0.map Char.toUpper = ['R']
      · rw [if_pos hr] at hg; cases hg
      · rw [if_neg hr] at hg
        exact first_sub_out_reported_ne_empty _ _ hg
    | passed =>
      simp only [hg]
      rcases List.mem_cons.mp hmem with h | h
      · obtain ⟨e0, he0⟩ := hbad
        rw [h, hg] at he0
        cases he0
      · exact ih (fun g hm => hne g (List.mem_cons_of_mem _ hm)) h
    | crashed =>
      exfalso
      rw [check_group] at hg
      by_cases hr : g0.map Char.toUpper = ['R']
      · rw [if_pos hr] at hg; cases hg
      · rw [if_neg hr] at hg
        exact first_sub_out_nocrash _ (hne g0 (List.mem_cons_self _ _) hr) hg

/-- C5 counterexample on grokmidi's commit path: `RiffCard.save_riff`
performs no validation at all, so committing the unrecognized letter `X`
silently replaces the phrase's notes (and the record the save file would
receive) with the invalid token — no validation failure is reported (the
operation has no error outcome) and the existing state is not
preserved. -/
theorem claim_C5_cex :
    (save_riff { initCard with entry := ['X'] }).riff.notes = [['X']] ∧
    (song_record (save_riff { initCard with entry := ['X'] })).notes = [['X']] := by
  exact ⟨by decide, by decide⟩

/-- C5 amended: midigimp's phrase-commit `_save_or_update_riff`
satisfies the claim on entries whose tokens contain no empty subnote —
given a token containing a subnote whose letter is not recognized, it
reports a validation failure naming an offending element and leaves the
riff list unchanged; an empty subnote, as in the token `+X`, instead
raises an uncaught `IndexError` (still leaving the list unchanged, but
reporting nothing — second conjunct); and grokmidi's `save_riff` commit
path performs no validation and silently accepts the token (see the
counterexample). -/
theorem claim_C5_amended (riffs : List MRiff) (entry : List Char) (duration : String)
    (octave instrument : Int) (ng : List Char) (c : Char) (rest : List Char)
    (hnoempty : ∀ g ∈ py_split_ws (py_strip entry), g.map Char.toUpper ≠ ['R'] →
      ∀ sub ∈ py_split_on '+' g, sub ≠ [])
    (hmem : ng ∈ py_split_ws (py_strip entry))
    (hng : ng.map Char.toUpper ≠ ['R'])
    (hsub : (c :: rest) ∈ py_split_on '+' ng)
    (hc : c.toUpper ∉ (['A','B','C','D','E','F','G'] : List Char)) :
    (∃ e : ValErr, save_or_update_riff riffs entry duration octave instrument
      = .ok (riffs, some e) ∧ e ≠ ValErr.emptyNotes) ∧
    save_or_update_riff riffs ['+', 'X'] duration octave instrument
      = .error "IndexError" := by
  constructor
  · have hstrip : py_strip entry ≠ [] := by
      intro hnil
      rw [hnil] at hmem
      cases hmem
    have hbadgroup : ∃ e, check_group ng = ValOutcome.reported e := by
      rw [check_group, if_neg hng]
      exact first_sub_out_reported _ (hnoempty ng hmem hng)
        ⟨c :: rest, hsub, check_sub_bad_letter c rest hc⟩
    obtain ⟨e, he, hne⟩ :=
      first_group_out_reported (py_split_ws (py_strip entry)) ng hnoempty hmem hbadgroup
    refine ⟨e, ?_, hne⟩
    simp only [save_or_update_riff]
    rw [if_neg hstrip]
    simp only [he]
  · rfl

/-- Witness for the amended C5: the entry `"X"` is rejected with a
reported error and the (empty) riff list is unchanged. -/
theorem claim_C5_amended_w :
    ∃ e : ValErr, save_or_update_riff [] ['X'] "4s" 4 0 = .ok ([], some e) ∧
      e ≠ ValErr.emptyNotes :=
  (claim_C5_amended [] ['X'] "4s" 4 0 ['X'] 'X' []
    (by decide) (by decide) (by decide) (by decide) (by decide)).1

end GrokRiff
